import Mathlib

/-!
Shallow embedding of the libbcc RenderScript kernel-fusion engine
(RSScriptGroupFusion.cpp) and of the compiler cache-slot constants and
readModule entry point (bcc_compiler.h), together with theorems checking
the natural-language specification against this embedding.
-/

namespace RSFusion

/-- LLVM types, abstracted: we only need to distinguish the 32-bit integer
type, the void type, and arbitrary other ("element") types. -/
inductive Ty where
  | void
  | i32
  | base (id : Nat)
  deriving DecidableEq, Repr, Inhabited

/-- The type of an LLVM function: parameter types and return type
(FunctionType with isVarArg = false). -/
structure FuncSig where
  args : List Ty
  ret : Ty
  deriving DecidableEq, Repr, Inhabited

/-- Modelled from the spec: the per-kernel metadata signature bits of the
external bcinfo MetadataExtractor header (not part of this repository's
sources). Only the identity/distinctness of the bits matters to the fusion
code; the numeric values follow the upstream bcinfo flag layout. -/
def MD_SIG_In : Nat := 1

/-- HasOutput signature bit (bcinfo MD_SIG_Out). -/
def MD_SIG_Out : Nat := 2

/-- UsesUsrData (user context) signature bit (bcinfo MD_SIG_Usr); outside the
supported set. -/
def MD_SIG_Usr : Nat := 4

/-- UsesX signature bit (bcinfo MD_SIG_X). -/
def MD_SIG_X : Nat := 8

/-- UsesY signature bit (bcinfo MD_SIG_Y). -/
def MD_SIG_Y : Nat := 16

/-- UsesZ signature bit (bcinfo MD_SIG_Z). -/
def MD_SIG_Z : Nat := 32

/-- IsKernel signature bit (bcinfo MD_SIG_Kernel). -/
def MD_SIG_Kernel : Nat := 64

/-- MetadataExtractor::hasForEachSignatureIn. -/
def hasIn (sig : Nat) : Bool := sig &&& MD_SIG_In != 0

/-- MetadataExtractor::hasForEachSignatureOut. -/
def hasOut (sig : Nat) : Bool := sig &&& MD_SIG_Out != 0

/-- MetadataExtractor::hasForEachSignatureX. -/
def hasX (sig : Nat) : Bool := sig &&& MD_SIG_X != 0

/-- MetadataExtractor::hasForEachSignatureY. -/
def hasY (sig : Nat) : Bool := sig &&& MD_SIG_Y != 0

/-- MetadataExtractor::hasForEachSignatureZ. -/
def hasZ (sig : Nat) : Bool := sig &&& MD_SIG_Z != 0

/-- MetadataExtractor::hasForEachSignatureKernel. -/
def hasKernelBit (sig : Nat) : Bool := sig &&& MD_SIG_Kernel != 0

/-- ExpectedSignatureBits from RSScriptGroupFusion.cpp:
In | Out | X | Y | Z | Kernel. -/
def ExpectedSignatureBits : Nat :=
  MD_SIG_In ||| MD_SIG_Out ||| MD_SIG_X ||| MD_SIG_Y ||| MD_SIG_Z ||| MD_SIG_Kernel

/-- All bits of a 32-bit word. -/
def uint32Mask : Nat := 2 ^ 32 - 1

/-- The uint32 complement of ExpectedSignatureBits, as used by the source
check (signature & ~ExpectedSignatureBits). -/
def notExpectedBits : Nat := uint32Mask ^^^ ExpectedSignatureBits

/-- What the MetadataExtractor exposes about one (source, slot) pair:
the exported-forEach name (none models a null name entry), the declared
input count, and the signature mask. -/
structure KernelMeta where
  forEachName : Option String
  inputCount : Nat
  signature : Nat
  deriving DecidableEq, Repr, Inhabited

/-- The destination (merged) LLVM module: its named functions with their
types, and the three named-metadata string lists used by the fusion code
(#rs_export_foreach_name, #rs_export_foreach, #rs_export_func). -/
structure Module where
  functions : List (String × FuncSig)
  exportForEachNameMD : List String
  exportForEachMD : List String
  exportFuncMD : List String
  deriving DecidableEq, Repr, Inhabited

/-- llvm::Module::getFunction: first function with the given name. -/
def Module.getFunction (M : Module) (name : String) : Option FuncSig :=
  (M.functions.find? (fun p => p.1 == name)).map (fun p => p.2)

/-- getFunction from RSScriptGroupFusion.cpp: resolve the forEach function of
one chain member in the merged module. Returns none when the name entry is
null or empty, when the kernel has more than one input, or when the merged
module has no function of that name. -/
def getFunction (mergedModule : Module) (k : KernelMeta) : Option FuncSig :=
  match k.forEachName with
  | none => none
  | some functionName =>
    if functionName = "" then none
    else if 1 < k.inputCount then none
    else mergedModule.getFunction functionName

/-- The loop of getFusedFuncSig: threads the running OR (retSig), the
firstSignature variable, and the last-read signature variable through the
chain; none models the early return -1. -/
def fusedSigLoop : List KernelMeta → Nat → Nat → Nat → Option (Nat × Nat × Nat)
  | [], retSig, firstSignature, signature => some (retSig, firstSignature, signature)
  | k :: rest, retSig, firstSignature, _ =>
    if 1 < k.inputCount then none
    else
      let signature := k.signature
      if signature &&& notExpectedBits != 0 then none
      else
        let firstSignature' := if firstSignature = 0 then signature else firstSignature
        fusedSigLoop rest (retSig ||| signature) firstSignature' signature

/-- getFusedFuncSig from RSScriptGroupFusion.cpp; some sig models storing sig
through retSig and returning 0, none models returning -1. -/
def getFusedFuncSig (chain : List KernelMeta) : Option Nat :=
  match fusedSigLoop chain 0 0 0 with
  | none => none
  | some (retSig, firstSignature, signature) =>
    let r1 := if hasIn firstSignature then retSig
              else retSig &&& (uint32Mask ^^^ MD_SIG_In)
    let r2 := if hasOut signature then r1
              else r1 &&& (uint32Mask ^^^ MD_SIG_Out)
    some r2






/-- The fused parameter-type list built by getFusedFuncType: examined from the
combined mask in fixed order [input, x, y, z]; the input type is copied from
the first kernel's first parameter, x/y/z are 32-bit integers. -/
def fusedArgTys (sig : Nat) (firstF : FuncSig) : List Ty :=
  (if hasIn sig then [firstF.args.headI] else [])
  ++ (if hasX sig then [Ty.i32] else [])
  ++ (if hasY sig then [Ty.i32] else [])
  ++ (if hasZ sig then [Ty.i32] else [])

/-- Result of getFusedFuncType: ok models returning a FunctionType (with the
signature stored through the out-parameter), fail models returning nullptr,
and assertFail models a tripped bccAssert (the process aborts rather than
returning). -/
inductive FTyResult where
  | fail
  | assertFail
  | ok (signature : Nat) (fty : FuncSig)
  deriving DecidableEq, Repr

/-- getFusedFuncType from RSScriptGroupFusion.cpp. -/
def getFusedFuncType (chain : List KernelMeta) (M : Module) : FTyResult :=
  match getFusedFuncSig chain with
  | none => FTyResult.fail
  | some signature =>
    match chain.head?, chain.getLast? with
    | some kFirst, some kLast =>
      match getFunction M kFirst, getFunction M kLast with
      | some firstF, some lastF =>
          FTyResult.ok signature ⟨fusedArgTys signature firstF, lastF.ret⟩
      | _, _ => FTyResult.assertFail
    | _, _ => FTyResult.assertFail

/-- An LLVM value occurring in the synthesized body: either the i-th
parameter of the fused function or the result of the i-th emitted call. -/
inductive Val where
  | arg (i : Nat)
  | callRes (i : Nat)
  deriving DecidableEq, Repr

/-- One emitted CallInst: the callee's name and the argument values pushed
(an argument is an Option Val because the source pushes raw pointers, and X/Y/Z
can in principle be null). -/
structure Call where
  callee : String
  args : List (Option Val)
  deriving DecidableEq, Repr, Inhabited

/-- The dataElement local of fuseKernels before the loop: the first fused
parameter when the combined mask keeps HasInput, else nullptr. -/
def paramIn (sig : Nat) : Option Val :=
  if hasIn sig then some (Val.arg 0) else none

/-- The X local of fuseKernels: the fused parameter at the argIter position
after the optional input parameter. -/
def paramX (sig : Nat) : Option Val :=
  if hasX sig then some (Val.arg (if hasIn sig then 1 else 0)) else none

/-- The Y local of fuseKernels. -/
def paramY (sig : Nat) : Option Val :=
  if hasY sig then
    some (Val.arg ((if hasIn sig then 1 else 0) + (if hasX sig then 1 else 0)))
  else none

/-- The Z local of fuseKernels. -/
def paramZ (sig : Nat) : Option Val :=
  if hasZ sig then
    some (Val.arg ((if hasIn sig then 1 else 0) + (if hasX sig then 1 else 0)
      + (if hasY sig then 1 else 0)))
  else none

/-- args.push_back(dataElement) guarded by dataElement != nullptr. -/
def pushIfNonNull (d : Option Val) : List (Option Val) :=
  match d with
  | some v => [some v]
  | none => []

/-- The argument list assembled for one member call: the running dataElement
when non-null, then X, Y, Z for each coordinate bit the member itself
declares. -/
def mkArgs (d X Y Z : Option Val) (k : KernelMeta) : List (Option Val) :=
  pushIfNonNull d
  ++ (if hasX k.signature then [X] else [])
  ++ (if hasY k.signature then [Y] else [])
  ++ (if hasZ k.signature then [Z] else [])

/-- The member loop of fuseKernels: walks the chain, resolving each member in
the merged module and emitting one call per member; error cs models the
return false path, with cs the calls already emitted into the entry block. -/
def fuseLoop (M : Module) (X Y Z : Option Val) :
    List KernelMeta → Option Val → Nat → Except (List Call) (List Call × Option Val)
  | [], dataElement, _ => Except.ok ([], dataElement)
  | k :: rest, dataElement, idx =>
    match getFunction M k with
    | none => Except.error []
    | some _ =>
      let c : Call := ⟨k.forEachName.getD "", mkArgs dataElement X Y Z k⟩
      match fuseLoop M X Y Z rest (some (Val.callRes idx)) (idx + 1) with
      | Except.error cs => Except.error (c :: cs)
      | Except.ok (cs, dfin) => Except.ok (c :: cs, dfin)

/-- The return instruction terminating the fused body. -/
inductive RetInst where
  | voidRet
  | valRet (v : Option Val)
  deriving DecidableEq, Repr

/-- Result of fuseKernels: ok carries the final module, the emitted calls and
the return instruction; failed carries the module state at the point the
function returned false together with the calls already emitted; asserted
models a tripped bccAssert. -/
inductive FuseResult where
  | asserted
  | failed (M : Module) (cs : List Call)
  | ok (M : Module) (calls : List Call) (r : RetInst)
  deriving DecidableEq, Repr

/-- Module::getOrInsertFunction on the destination module: inserts the fused
function under fusedName when no function of that name exists yet. -/
def insertFused (M : Module) (fusedName : String) (fusedType : FuncSig) : Module :=
  { M with functions :=
      if (M.getFunction fusedName).isSome then M.functions
      else M.functions ++ [(fusedName, fusedType)] }

/-- fuseKernels from RSScriptGroupFusion.cpp. -/
def fuseKernels (chain : List KernelMeta) (fusedName : String) (M : Module) :
    FuseResult :=
  match getFusedFuncType chain M with
  | FTyResult.fail => FuseResult.failed M []
  | FTyResult.assertFail => FuseResult.asserted
  | FTyResult.ok signature fusedType =>
    let M1 : Module := insertFused M fusedName fusedType
    match fuseLoop M1 (paramX signature) (paramY signature) (paramZ signature)
        chain (paramIn signature) 0 with
    | Except.error cs => FuseResult.failed M1 cs
    | Except.ok (calls, dataElement) =>
      let M2 : Module := { M1 with
        exportForEachNameMD := M1.exportForEachNameMD ++ [fusedName],
        exportForEachMD := M1.exportForEachMD ++ [Nat.repr signature] }
      if fusedType.ret = Ty.void then FuseResult.ok M2 calls RetInst.voidRet
      else FuseResult.ok M2 calls (RetInst.valRet dataElement)

/-- getInvokeFunction from RSScriptGroupFusion.cpp: funcName is the exported
function name extracted from the source's metadata (none models a failed
metadata extraction). -/
def getInvokeFunction (funcName : Option String) (newModule : Module) :
    Option FuncSig :=
  match funcName with
  | none => none
  | some n => newModule.getFunction n

/-- renameInvoke from RSScriptGroupFusion.cpp. Returns the updated module,
the type of the created trampoline, its single emitted call and its return
instruction; none models the undefined behaviour of dereferencing an
unresolved function. -/
def renameInvoke (funcName : Option String) (newName : String) (M : Module) :
    Option (Module × FuncSig × Call × RetInst) :=
  match getInvokeFunction funcName M with
  | none => none
  | some F =>
    let batchFuncTy : FuncSig := ⟨F.args, F.ret⟩
    let M1 : Module := { M with functions := M.functions ++ [(newName, batchFuncTy)] }
    let c : Call := ⟨funcName.getD "", [some (Val.arg 0)]⟩
    let M2 : Module := { M1 with exportFuncMD := M1.exportFuncMD ++ [newName] }
    some (M2, batchFuncTy, c, RetInst.voidRet)

end RSFusion

namespace BccCompiler

/-- BCC_MMAP_IMG_BEGIN from bcc_compiler.h. -/
def BCC_MMAP_IMG_BEGIN : Nat := 0x7e000000

/-- BCC_MMAP_IMG_COUNT from bcc_compiler.h. -/
def BCC_MMAP_IMG_COUNT : Nat := 5

/-- BCC_MMAP_IMG_CODE_SIZE from bcc_compiler.h. -/
def BCC_MMAP_IMG_CODE_SIZE : Nat := 128 * 1024

/-- BCC_MMAP_IMG_DATA_SIZE from bcc_compiler.h. -/
def BCC_MMAP_IMG_DATA_SIZE : Nat := 128 * 1024

/-- BCC_MMAP_IMG_SIZE from bcc_compiler.h. -/
def BCC_MMAP_IMG_SIZE : Nat := BCC_MMAP_IMG_CODE_SIZE + BCC_MMAP_IMG_DATA_SIZE

/-- The static (process-wide) state of the Compiler class declared in
bcc_compiler.h: the one-time initialization flag and the address-slot
occupancy table, one bool per slot (the backend configuration values the
initialization also sets are abstracted away). -/
structure CompilerGlobals where
  GlobalInitialized : Bool
  BccMmapImgAddrTaken : { l : List Bool // l.length = BCC_MMAP_IMG_COUNT }

/-- Modelled from the spec: the body of Compiler::GlobalInitialization is not
among the given sources; per the spec it performs one-time process-wide
backend initialization, guarded against double initialization. -/
def GlobalInitialization (g : CompilerGlobals) : CompilerGlobals :=
  if g.GlobalInitialized then g else { g with GlobalInitialized := true }

/-- The per-instance Compiler state used by readModule: the retained error
message, the current module (a pointer, modelled as an abstract id) and
the process-wide globals. -/
structure Compiler where
  globals : CompilerGlobals
  mError : String
  mModule : Option Nat

/-- Compiler::hasError from bcc_compiler.h. -/
def Compiler.hasError (c : Compiler) : Bool := !c.mError.isEmpty

/-- Compiler::readModule from bcc_compiler.h; the returned Nat is the C int
(bool converted), 1 for true and 0 for false. -/
def Compiler.readModule (c : Compiler) (module : Nat) : Compiler × Nat :=
  let g := GlobalInitialization c.globals
  let c1 : Compiler := { c with globals := g, mModule := some module }
  (c1, if c1.hasError then 1 else 0)

end BccCompiler

namespace RSFusion

/-- The bitwise OR of all member signatures of a chain. -/
def orSigs : List KernelMeta → Nat
  | [] => 0
  | k :: rest => k.signature ||| orSigs rest

/-- The value the firstSignature loop variable of getFusedFuncSig holds after
the loop: the first nonzero member signature (0 when every member signature
is zero). -/
def firstNonzeroSig : List KernelMeta → Nat
  | [] => 0
  | k :: rest => if k.signature = 0 then firstNonzeroSig rest else k.signature

/-- The value the signature loop variable of getFusedFuncSig holds after the
loop, starting from l: the last member's signature, or l for an empty chain. -/
def lastSigFrom : Nat → List KernelMeta → Nat
  | l, [] => l
  | _, k :: rest => lastSigFrom k.signature rest

/-- One member passes both negotiation checks: input count at most one and no
signature bit outside the supported set. -/
def acceptedKernel (k : KernelMeta) : Bool :=
  k.inputCount ≤ 1 && (k.signature &&& notExpectedBits == 0)

/-- Every member of the chain passes the negotiation checks. -/
def acceptedChain (chain : List KernelMeta) : Bool := chain.all acceptedKernel

/-- Closed form of the combined signature computed by getFusedFuncSig. -/
def combinedSig (chain : List KernelMeta) : Nat :=
  let r := orSigs chain
  let r1 := if hasIn (firstNonzeroSig chain) then r
            else r &&& (uint32Mask ^^^ MD_SIG_In)
  if hasOut (lastSigFrom 0 chain) then r1
  else r1 &&& (uint32Mask ^^^ MD_SIG_Out)

/-- The running current value before the i-th member call of the fused body:
the fused DataIn parameter (when the combined mask keeps HasInput) for the
first member, the previous call's result thereafter. -/
def runningVal (hasInput : Bool) : Nat → Option Val
  | 0 => if hasInput then some (Val.arg 0) else none
  | i + 1 => some (Val.callRes i)

/-- Generalized running value: starting state d and call counter idx. -/
def runFrom (d : Option Val) (idx : Nat) : Nat → Option Val
  | 0 => d
  | i + 1 => some (Val.callRes (idx + i))

/-- Number of parameters of the fused function. -/
def numFusedParams (sig : Nat) : Nat :=
  (if hasIn sig then 1 else 0) + (if hasX sig then 1 else 0)
  + (if hasY sig then 1 else 0) + (if hasZ sig then 1 else 0)

/-- All parameters of the fused function, in order, as call arguments. -/
def fusedArgVals (sig : Nat) : List (Option Val) :=
  (List.range (numFusedParams sig)).map (fun j => some (Val.arg j))

/-- C1 counterexample fixture: a first kernel whose signature mask is zero
followed by a kernel declaring HasInput. -/
def chainC1 : List KernelMeta := [⟨some "k1", 0, 0⟩, ⟨some "k2", 0, MD_SIG_In⟩]

/-- C1 witness fixture. -/
def chainW1 : List KernelMeta :=
  [⟨some "a", 0, MD_SIG_In ||| MD_SIG_X⟩, ⟨some "b", 0, MD_SIG_Out ||| MD_SIG_Y⟩]

/-- C2 counterexample chain: K1 declares only HasOutput, K2 declares only
UsesX (no HasInput). -/
def chainC2 : List KernelMeta := [⟨some "k1", 0, MD_SIG_Out⟩, ⟨some "k2", 0, MD_SIG_X⟩]

/-- C2 counterexample module, resolving both member kernels. -/
def MC2 : Module :=
  ⟨[("k1", ⟨[], Ty.base 0⟩), ("k2", ⟨[Ty.base 0, Ty.i32], Ty.void⟩)], [], [], []⟩

/-- C2 witness chain. -/
def chainW2 : List KernelMeta :=
  [⟨some "p", 0, MD_SIG_In ||| MD_SIG_Out⟩, ⟨some "q", 0, MD_SIG_In ||| MD_SIG_Out⟩]

/-- C2 witness module. -/
def MW2 : Module :=
  ⟨[("p", ⟨[Ty.base 0], Ty.base 0⟩), ("q", ⟨[Ty.base 0], Ty.base 0⟩)], [], [], []⟩

/-- C3 fixture chain: middle member unresolvable in the destination module. -/
def chainC3 : List KernelMeta :=
  [⟨some "k1", 0, 3⟩, ⟨some "k2", 0, 3⟩, ⟨some "k3", 0, 3⟩]

/-- C3 fixture module: resolves k1 and k3 but not k2. -/
def MC3 : Module :=
  ⟨[("k1", ⟨[Ty.base 0], Ty.base 0⟩), ("k3", ⟨[Ty.base 0], Ty.base 0⟩)], [], [], []⟩

/-- C4 witness chain: single kernel with two declared inputs. -/
def chainW4 : List KernelMeta := [⟨some "k", 2, 3⟩]

/-- C4 witness module. -/
def MW4 : Module := ⟨[], ["old"], ["1"], []⟩

/-- C5 witness chain. -/
def chainW5 : List KernelMeta :=
  [⟨some "k", 0, MD_SIG_In ||| MD_SIG_Out ||| MD_SIG_X⟩]

/-- C5 witness module. -/
def MW5 : Module := ⟨[("k", ⟨[Ty.base 7, Ty.i32], Ty.base 9⟩)], [], [], []⟩

/-- C6 witness chain. -/
def chainW6 : List KernelMeta := [⟨some "g", 0, MD_SIG_In ||| MD_SIG_Out⟩]

/-- C6 witness module, with one prior exported kernel in each list. -/
def MW6 : Module := ⟨[("g", ⟨[Ty.base 1], Ty.base 1⟩)], ["g"], ["3"], []⟩

/-- C7 witness module. -/
def MW7 : Module := ⟨[("fn", ⟨[Ty.base 1, Ty.i32], Ty.i32⟩)], [], [], []⟩

/-- C8 witness kernel. -/
def kW8 : KernelMeta := ⟨some "orig", 1, MD_SIG_In ||| MD_SIG_X ||| MD_SIG_Kernel⟩

/-- C8 witness module. -/
def MW8 : Module := ⟨[("orig", ⟨[Ty.base 2, Ty.i32], Ty.base 2⟩)], [], [], []⟩

/-- The module state fuseKernels produces on the C2 counterexample run. -/
def MC2' : Module :=
  ⟨[("k1", ⟨[], Ty.base 0⟩), ("k2", ⟨[Ty.base 0, Ty.i32], Ty.void⟩),
    ("fused", ⟨[Ty.i32], Ty.void⟩)], ["fused"], ["8"], []⟩

/-- The module state fuseKernels produces on the C2 witness run. -/
def MW2' : Module :=
  ⟨[("p", ⟨[Ty.base 0], Ty.base 0⟩), ("q", ⟨[Ty.base 0], Ty.base 0⟩),
    ("f", ⟨[Ty.base 0], Ty.base 0⟩)], ["f"], ["3"], []⟩

/-- The module state fuseKernels leaves behind on the failed C3 run. -/
def MC3' : Module :=
  ⟨[("k1", ⟨[Ty.base 0], Ty.base 0⟩), ("k3", ⟨[Ty.base 0], Ty.base 0⟩),
    ("fused", ⟨[Ty.base 0], Ty.base 0⟩)], [], [], []⟩

/-- The module state fuseKernels produces on the C6 witness run. -/
def MW6' : Module :=
  ⟨[("g", ⟨[Ty.base 1], Ty.base 1⟩), ("h", ⟨[Ty.base 1], Ty.base 1⟩)],
   ["g", "h"], ["3", "3"], []⟩

lemma land_two_pow_eq (s i : Nat) :
    s &&& 2 ^ i = if s.testBit i then 2 ^ i else 0 := by
  apply Nat.eq_of_testBit_eq
  intro j
  rcases eq_or_ne j i with rfl | hij
  · cases h : s.testBit j <;>
      simp [Nat.testBit_and, h, Nat.testBit_two_pow]
  · cases h : s.testBit i <;>
      simp [Nat.testBit_and, Nat.testBit_two_pow, Ne.symm hij, hij]

lemma land_two_pow_ne_zero (s i : Nat) : (s &&& 2 ^ i != 0) = s.testBit i := by
  rw [land_two_pow_eq]
  cases h : s.testBit i <;> simp [Nat.pos_iff_ne_zero.mp (Nat.two_pow_pos i)]

lemma hasIn_testBit (s : Nat) : hasIn s = s.testBit 0 := by
  have h : MD_SIG_In = 2 ^ 0 := rfl
  rw [hasIn, h, land_two_pow_ne_zero]

lemma hasOut_testBit (s : Nat) : hasOut s = s.testBit 1 := by
  have h : MD_SIG_Out = 2 ^ 1 := rfl
  rw [hasOut, h, land_two_pow_ne_zero]

lemma hasX_testBit (s : Nat) : hasX s = s.testBit 3 := by
  have h : MD_SIG_X = 2 ^ 3 := rfl
  rw [hasX, h, land_two_pow_ne_zero]

lemma hasY_testBit (s : Nat) : hasY s = s.testBit 4 := by
  have h : MD_SIG_Y = 2 ^ 4 := rfl
  rw [hasY, h, land_two_pow_ne_zero]

lemma hasZ_testBit (s : Nat) : hasZ s = s.testBit 5 := by
  have h : MD_SIG_Z = 2 ^ 5 := rfl
  rw [hasZ, h, land_two_pow_ne_zero]

lemma hasKernelBit_testBit (s : Nat) : hasKernelBit s = s.testBit 6 := by
  have h : MD_SIG_Kernel = 2 ^ 6 := rfl
  rw [hasKernelBit, h, land_two_pow_ne_zero]

lemma testBit_clearMask (r j i : Nat) (hj : j < 32) :
    (r &&& (uint32Mask ^^^ 2 ^ j)).testBit i =
      (r.testBit i && decide (i < 32) && !(decide (i = j))) := by
  have hm : uint32Mask = 2 ^ 32 - 1 := rfl
  rw [Nat.testBit_and, Nat.testBit_xor, hm, Nat.testBit_two_pow_sub_one,
    Nat.testBit_two_pow]
  rcases eq_or_ne i j with rfl | h
  · simp [hj]
  · by_cases hi : i < 32 <;> simp [hi, h, Ne.symm h]

lemma clear_of_not_testBit (s j : Nat) (hs : s < 2 ^ 32) (hj : j < 32)
    (h : s.testBit j = false) : s &&& (uint32Mask ^^^ 2 ^ j) = s := by
  apply Nat.eq_of_testBit_eq
  intro i
  rw [testBit_clearMask _ _ _ hj]
  cases hsi : s.testBit i
  · simp
  · have hi : i < 32 := by
      by_contra hge
      have h32 : s < 2 ^ i := lt_of_lt_of_le hs (Nat.pow_le_pow_right (by norm_num) (by omega))
      rw [Nat.testBit_lt_two_pow h32] at hsi
      exact Bool.false_ne_true hsi
    have hij : i ≠ j := by
      rintro rfl
      rw [h] at hsi
      exact Bool.false_ne_true hsi
    simp [hi, hij]

lemma orSigs_testBit (chain : List KernelMeta) (i : Nat) :
    (orSigs chain).testBit i = chain.any (fun k => k.signature.testBit i) := by
  induction chain with
  | nil => simp [orSigs]
  | cons k rest ih => simp [orSigs, Nat.testBit_or, ih]

lemma firstNonzeroSig_mem (chain : List KernelMeta)
    (h : firstNonzeroSig chain ≠ 0) :
    ∃ k ∈ chain, k.signature = firstNonzeroSig chain := by
  induction chain with
  | nil => simp [firstNonzeroSig] at h
  | cons k rest ih =>
    by_cases hk : k.signature = 0
    · have he : firstNonzeroSig (k :: rest) = firstNonzeroSig rest := by
        simp [firstNonzeroSig, hk]
      rw [he] at h ⊢
      obtain ⟨k0, hk0, hs⟩ := ih h
      exact ⟨k0, List.mem_cons_of_mem _ hk0, hs⟩
    · have he : firstNonzeroSig (k :: rest) = k.signature := by
        simp [firstNonzeroSig, hk]
      exact ⟨k, List.mem_cons_self _ _, he.symm⟩

lemma lastSigFrom_getLast (chain : List KernelMeta) :
    ∀ l klast, chain.getLast? = some klast →
      lastSigFrom l chain = klast.signature := by
  induction chain with
  | nil => intro l klast h; simp at h
  | cons k rest ih =>
    intro l klast h
    cases rest with
    | nil =>
      simp at h
      subst h
      rfl
    | cons k2 rest2 =>
      rw [List.getLast?_cons_cons] at h
      exact ih k.signature klast h

lemma getLast?_mem (chain : List KernelMeta) (klast : KernelMeta)
    (h : chain.getLast? = some klast) : klast ∈ chain := by
  rw [List.getLast?_eq_getElem?] at h
  exact List.getElem?_mem h

lemma fusedSigLoop_eq (chain : List KernelMeta)
    (h : acceptedChain chain = true) :
    ∀ r f l, fusedSigLoop chain r f l =
      some (r ||| orSigs chain,
            (if f = 0 then firstNonzeroSig chain else f),
            lastSigFrom l chain) := by
  induction chain with
  | nil =>
    intro r f l
    by_cases hf : f = 0 <;> simp [fusedSigLoop, orSigs, firstNonzeroSig, lastSigFrom, hf]
  | cons k rest ih =>
    intro r f l
    rw [acceptedChain, List.all_cons, Bool.and_eq_true] at h
    obtain ⟨hk, hrest⟩ := h
    rw [acceptedKernel, Bool.and_eq_true] at hk
    have h1 : ¬ (1 < k.inputCount) := by
      have := of_decide_eq_true hk.1
      omega
    have h2 : (k.signature &&& notExpectedBits != 0) = false := by
      simpa using hk.2
    rw [fusedSigLoop, if_neg h1]
    simp only [h2, Bool.false_eq_true, if_false]
    rw [ih hrest]
    have hor : r ||| k.signature ||| orSigs rest = r ||| orSigs (k :: rest) := by
      rw [orSigs, Nat.or_assoc]
    rw [hor]
    have hlast : lastSigFrom k.signature rest = lastSigFrom l (k :: rest) := rfl
    rw [hlast]
    by_cases hf : f = 0
    · by_cases hks : k.signature = 0
      · simp [hf, hks, firstNonzeroSig]
      · simp [hf, hks, firstNonzeroSig]
    · simp [hf, firstNonzeroSig]

lemma fusedSigLoop_none (chain : List KernelMeta)
    (h : acceptedChain chain = false) :
    ∀ r f l, fusedSigLoop chain r f l = none := by
  induction chain with
  | nil => intro r f l; simp [acceptedChain] at h
  | cons k rest ih =>
    intro r f l
    rw [acceptedChain, List.all_cons, Bool.and_eq_false_iff] at h
    by_cases h1 : 1 < k.inputCount
    · rw [fusedSigLoop, if_pos h1]
    · rw [fusedSigLoop, if_neg h1]
      by_cases h2 : (k.signature &&& notExpectedBits == 0) = true
      · have hk : acceptedKernel k = true := by
          rw [acceptedKernel, Bool.and_eq_true]
          exact ⟨decide_eq_true (by omega), h2⟩
        have hrest : acceptedChain rest = false := by
          rcases h with h | h
          · rw [hk] at h; exact absurd h (by simp)
          · exact h
        have h2' : (k.signature &&& notExpectedBits != 0) = false := by
          simpa using h2
        simp only [h2', Bool.false_eq_true, if_false]
        exact ih hrest _ _ _
      · have h2' : (k.signature &&& notExpectedBits != 0) = true := by
          simp only [bne_iff_ne, ne_eq]
          intro hz
          exact h2 (by simp [hz])
        simp [h2']

lemma getFusedFuncSig_of_accepted (chain : List KernelMeta)
    (h : acceptedChain chain = true) :
    getFusedFuncSig chain = some (combinedSig chain) := by
  rw [getFusedFuncSig, fusedSigLoop_eq chain h 0 0 0]
  simp only [Nat.zero_or, if_pos rfl]
  rfl

lemma getFusedFuncSig_inv (chain : List KernelMeta) (s : Nat)
    (h : getFusedFuncSig chain = some s) :
    acceptedChain chain = true ∧ s = combinedSig chain := by
  cases ha : acceptedChain chain
  · rw [getFusedFuncSig, fusedSigLoop_none chain ha 0 0 0] at h
    simp at h
  · rw [getFusedFuncSig_of_accepted chain ha] at h
    exact ⟨rfl, (Option.some.injEq _ _ ▸ h).symm⟩

lemma getFusedFuncSig_of_fty (chain : List KernelMeta) (M : Module)
    (sig : Nat) (fty : FuncSig)
    (h : getFusedFuncType chain M = FTyResult.ok sig fty) :
    getFusedFuncSig chain = some sig := by
  rw [getFusedFuncType] at h
  cases hs : getFusedFuncSig chain with
  | none =>
    simp only [hs] at h
    exact absurd h (by simp)
  | some s =>
    simp only [hs] at h
    split at h
    · split at h
      · rw [(FTyResult.ok.injEq _ _ _ _ |>.mp h).1]
      · exact absurd h (by simp)
    · exact absurd h (by simp)

lemma find?_append_left {α : Type} (l1 l2 : List α) (p : α → Bool) (a : α)
    (h : l1.find? p = some a) : (l1 ++ l2).find? p = some a := by
  induction l1 with
  | nil => simp at h
  | cons x l ih =>
    by_cases hx : p x
    · rw [List.find?_cons_of_pos _ hx] at h
      rw [List.cons_append, List.find?_cons_of_pos _ hx]
      exact h
    · rw [List.find?_cons_of_neg _ (by simpa using hx)] at h
      rw [List.cons_append, List.find?_cons_of_neg _ (by simpa using hx)]
      exact ih h

lemma getFunction_append (M : Module) (fns : List (String × FuncSig))
    (k : KernelMeta) (F : FuncSig) (h : getFunction M k = some F) :
    getFunction { M with functions := M.functions ++ fns } k = some F := by
  rcases hn : k.forEachName with _ | nm
  · simp only [getFunction, hn] at h
    exact absurd h (by simp)
  · simp only [getFunction, hn] at h ⊢
    by_cases he : nm = ""
    · rw [if_pos he] at h; simp at h
    · rw [if_neg he] at h ⊢
      by_cases hc : 1 < k.inputCount
      · rw [if_pos hc] at h; simp at h
      · rw [if_neg hc] at h ⊢
        rw [Module.getFunction] at h ⊢
        rcases hf : M.functions.find? (fun p => p.1 == nm) with _ | pr
        · rw [hf] at h; simp at h
        · simp only
          rw [find?_append_left _ fns _ _ hf]
          rw [hf] at h
          exact h

lemma runFrom_shift (d : Option Val) (idx i : Nat) :
    runFrom (some (Val.callRes idx)) (idx + 1) i = runFrom d idx (i + 1) := by
  cases i with
  | zero => simp [runFrom]
  | succ j =>
    simp only [runFrom, Option.some.injEq, Val.callRes.injEq]
    omega

lemma fuseLoop_ok_spec (M : Module) (X Y Z : Option Val)
    (chain : List KernelMeta) :
    ∀ (d : Option Val) (idx : Nat) (calls : List Call) (dfin : Option Val),
      fuseLoop M X Y Z chain d idx = Except.ok (calls, dfin) →
      calls.length = chain.length ∧
      (∀ (i : Nat) (k : KernelMeta), chain[i]? = some k →
        calls[i]? = some ⟨k.forEachName.getD "", mkArgs (runFrom d idx i) X Y Z k⟩) ∧
      dfin = runFrom d idx chain.length := by
  induction chain with
  | nil =>
    intro d idx calls dfin h
    rw [fuseLoop] at h
    simp only [Except.ok.injEq, Prod.mk.injEq] at h
    obtain ⟨h1, h2⟩ := h
    subst h1
    subst h2
    refine ⟨rfl, ?_, rfl⟩
    intro i k hk
    simp at hk
  | cons k0 rest ih =>
    intro d idx calls dfin h
    rw [fuseLoop] at h
    rcases hf : getFunction M k0 with _ | F
    · simp only [hf] at h
      exact absurd h (by simp)
    · simp only [hf] at h
      rcases hr : fuseLoop M X Y Z rest (some (Val.callRes idx)) (idx + 1) with cs | p
      · simp only [hr] at h
        exact absurd h (by simp)
      · obtain ⟨cs, dfin'⟩ := p
        simp only [hr, Except.ok.injEq, Prod.mk.injEq] at h
        obtain ⟨hcalls, hdfin⟩ := h
        obtain ⟨hlen, hspec, hdf⟩ := ih (some (Val.callRes idx)) (idx + 1) cs dfin' hr
        subst hcalls
        subst hdfin
        refine ⟨by simp [hlen], ?_, ?_⟩
        · intro i k hk
          cases i with
          | zero =>
            simp only [List.getElem?_cons_zero, Option.some.injEq] at hk
            subst hk
            simp [runFrom]
          | succ j =>
            simp only [List.getElem?_cons_succ] at hk ⊢
            rw [hspec j k hk, runFrom_shift d idx j]
        · rw [hdf, List.length_cons, runFrom_shift d idx rest.length]

lemma fuseLoop_error_spec (M : Module) (X Y Z : Option Val)
    (chain : List KernelMeta) :
    ∀ (d : Option Val) (idx : Nat) (cs : List Call),
      fuseLoop M X Y Z chain d idx = Except.error cs →
      ∃ k ∈ chain, getFunction M k = none := by
  induction chain with
  | nil =>
    intro d idx cs h
    rw [fuseLoop] at h
    simp at h
  | cons k0 rest ih =>
    intro d idx cs h
    rw [fuseLoop] at h
    rcases hf : getFunction M k0 with _ | F
    · exact ⟨k0, List.mem_cons_self _ _, hf⟩
    · simp only [hf] at h
      rcases hr : fuseLoop M X Y Z rest (some (Val.callRes idx)) (idx + 1) with cs' | p
      · obtain ⟨k, hk, hnone⟩ := ih _ _ _ hr
        exact ⟨k, List.mem_cons_of_mem _ hk, hnone⟩
      · simp only [hr] at h
        exact absurd h (by simp)

lemma fuseKernels_ok_inv (chain : List KernelMeta) (fusedName : String)
    (M M' : Module) (calls : List Call) (r : RetInst)
    (h : fuseKernels chain fusedName M = FuseResult.ok M' calls r) :
    ∃ sig fty dfin,
      getFusedFuncType chain M = FTyResult.ok sig fty ∧
      fuseLoop (insertFused M fusedName fty) (paramX sig) (paramY sig) (paramZ sig)
          chain (paramIn sig) 0 = Except.ok (calls, dfin) ∧
      M' = { insertFused M fusedName fty with
             exportForEachNameMD := M.exportForEachNameMD ++ [fusedName],
             exportForEachMD := M.exportForEachMD ++ [Nat.repr sig] } ∧
      r = (if fty.ret = Ty.void then RetInst.voidRet else RetInst.valRet dfin) := by
  rw [fuseKernels] at h
  cases hT : getFusedFuncType chain M with
  | fail =>
    simp only [hT] at h
    exact absurd h (by simp)
  | assertFail =>
    simp only [hT] at h
    exact absurd h (by simp)
  | ok sig fty =>
    simp only [hT] at h
    refine ⟨sig, fty, ?_⟩
    cases hL : fuseLoop (insertFused M fusedName fty) (paramX sig) (paramY sig)
        (paramZ sig) chain (paramIn sig) 0 with
    | error cs =>
      simp only [hL] at h
      exact absurd h (by simp)
    | ok p =>
      obtain ⟨cs, dfin⟩ := p
      simp only [hL] at h
      by_cases hv : fty.ret = Ty.void
      · rw [if_pos hv] at h
        obtain ⟨hM, hc, hr⟩ := FuseResult.ok.injEq _ _ _ _ _ _ |>.mp h
        subst hc
        refine ⟨dfin, rfl, rfl, ?_, ?_⟩
        · rw [← hM]
          rfl
        · rw [if_pos hv, ← hr]
      · rw [if_neg hv] at h
        obtain ⟨hM, hc, hr⟩ := FuseResult.ok.injEq _ _ _ _ _ _ |>.mp h
        subst hc
        refine ⟨dfin, rfl, rfl, ?_, ?_⟩
        · rw [← hM]
          rfl
        · rw [if_neg hv, ← hr]

lemma fuseKernels_ok_calls (chain : List KernelMeta) (fusedName : String)
    (M M' : Module) (calls : List Call) (r : RetInst) (sig : Nat) (fty : FuncSig)
    (hT : getFusedFuncType chain M = FTyResult.ok sig fty)
    (h : fuseKernels chain fusedName M = FuseResult.ok M' calls r) :
    ∃ dfin,
      fuseLoop (insertFused M fusedName fty) (paramX sig) (paramY sig) (paramZ sig)
          chain (paramIn sig) 0 = Except.ok (calls, dfin) := by
  obtain ⟨sig', fty', dfin, hT', hL, _, _⟩ := fuseKernels_ok_inv chain fusedName M M' calls r h
  rw [hT] at hT'
  obtain ⟨hs, hf⟩ := FTyResult.ok.injEq _ _ _ _ |>.mp hT'
  subst hs
  subst hf
  exact ⟨dfin, hL⟩

lemma fuseKernels_failed_inv (chain : List KernelMeta) (fusedName : String)
    (M M' : Module) (cs : List Call) (sig : Nat) (fty : FuncSig)
    (hT : getFusedFuncType chain M = FTyResult.ok sig fty)
    (h : fuseKernels chain fusedName M = FuseResult.failed M' cs) :
    M' = insertFused M fusedName fty ∧
    fuseLoop (insertFused M fusedName fty) (paramX sig) (paramY sig) (paramZ sig)
        chain (paramIn sig) 0 = Except.error cs := by
  rw [fuseKernels] at h
  simp only [hT] at h
  cases hL : fuseLoop (insertFused M fusedName fty) (paramX sig) (paramY sig)
      (paramZ sig) chain (paramIn sig) 0 with
  | error cs' =>
    simp only [hL] at h
    obtain ⟨hM, hc⟩ := FuseResult.failed.injEq _ _ _ _ |>.mp h
    subst hc
    exact ⟨hM.symm, rfl⟩
  | ok p =>
    obtain ⟨cs', dfin⟩ := p
    simp only [hL] at h
    by_cases hv : fty.ret = Ty.void <;> simp [hv] at h

lemma testBit_combined_high (chain : List KernelMeta) (i : Nat) (hi : i < 32)
    (h0 : i ≠ 0) (h1 : i ≠ 1) :
    (combinedSig chain).testBit i = (orSigs chain).testBit i := by
  have e0 : MD_SIG_In = 2 ^ 0 := rfl
  have e1 : MD_SIG_Out = 2 ^ 1 := rfl
  simp only [combinedSig, e0, e1]
  by_cases ha : hasIn (firstNonzeroSig chain) <;> by_cases hb : hasOut (lastSigFrom 0 chain)
  · rw [if_pos hb, if_pos ha]
  · rw [if_neg hb, if_pos ha, testBit_clearMask _ 1 i (by norm_num)]
    simp [hi, h1]
  · rw [if_pos hb, if_neg ha, testBit_clearMask _ 0 i (by norm_num)]
    simp [hi, h0]
  · rw [if_neg hb, if_neg ha, testBit_clearMask _ 1 i (by norm_num),
      testBit_clearMask _ 0 i (by norm_num)]
    simp [hi, h0, h1]

lemma testBit_combined_zero (chain : List KernelMeta) :
    (combinedSig chain).testBit 0 =
      (hasIn (firstNonzeroSig chain) && (orSigs chain).testBit 0) := by
  have e0 : MD_SIG_In = 2 ^ 0 := rfl
  have e1 : MD_SIG_Out = 2 ^ 1 := rfl
  simp only [combinedSig, e0, e1]
  by_cases ha : hasIn (firstNonzeroSig chain) <;> by_cases hb : hasOut (lastSigFrom 0 chain)
  · rw [if_pos hb, if_pos ha]
    simp [ha]
  · rw [if_neg hb, if_pos ha, testBit_clearMask _ 1 0 (by norm_num)]
    simp [ha]
  · rw [if_pos hb, if_neg ha, testBit_clearMask _ 0 0 (by norm_num)]
    simp [Bool.eq_false_iff.mpr ha]
  · rw [if_neg hb, if_neg ha, testBit_clearMask _ 1 0 (by norm_num),
      testBit_clearMask _ 0 0 (by norm_num)]
    simp [Bool.eq_false_iff.mpr ha]

lemma testBit_combined_one (chain : List KernelMeta) :
    (combinedSig chain).testBit 1 =
      (hasOut (lastSigFrom 0 chain) && (orSigs chain).testBit 1) := by
  have e0 : MD_SIG_In = 2 ^ 0 := rfl
  have e1 : MD_SIG_Out = 2 ^ 1 := rfl
  simp only [combinedSig, e0, e1]
  by_cases ha : hasIn (firstNonzeroSig chain) <;> by_cases hb : hasOut (lastSigFrom 0 chain)
  · rw [if_pos hb, if_pos ha]
    simp [hb]
  · rw [if_neg hb, if_pos ha, testBit_clearMask _ 1 1 (by norm_num)]
    simp [Bool.eq_false_iff.mpr hb]
  · rw [if_pos hb, if_neg ha, testBit_clearMask _ 0 1 (by norm_num)]
    simp [hb]
  · rw [if_neg hb, if_neg ha, testBit_clearMask _ 1 1 (by norm_num),
      testBit_clearMask _ 0 1 (by norm_num)]
    simp [Bool.eq_false_iff.mpr hb]

lemma clearTwice_of_le (s : Nat) (hs : s < 2 ^ 32)
    (h0 : s.testBit 0 = false) : s &&& (uint32Mask ^^^ 2 ^ 0) = s :=
  clear_of_not_testBit s 0 hs (by norm_num) h0

lemma combinedSig_singleton (k : KernelMeta) (hw : k.signature < 2 ^ 32) :
    combinedSig [k] = k.signature := by
  have e0 : MD_SIG_In = 2 ^ 0 := rfl
  have e1 : MD_SIG_Out = 2 ^ 1 := rfl
  have hor : orSigs [k] = k.signature := by simp [orSigs]
  have hlast : lastSigFrom 0 [k] = k.signature := rfl
  rw [combinedSig]
  simp only [hor, hlast, e0, e1]
  by_cases hk0 : k.signature = 0
  · simp [hk0, firstNonzeroSig]
  · have hfn : firstNonzeroSig [k] = k.signature := by
      simp [firstNonzeroSig, hk0]
    rw [hfn]
    by_cases ha : hasIn k.signature <;> by_cases hb : hasOut k.signature <;>
      simp only [ha, hb, if_true, if_false, Bool.false_eq_true, ite_true, ite_false]
    · rw [clear_of_not_testBit _ 1 hw (by norm_num) (by rw [← hasOut_testBit]; simpa using hb)]
    · rw [clear_of_not_testBit _ 0 hw (by norm_num) (by rw [← hasIn_testBit]; simpa using ha)]
    · rw [clear_of_not_testBit _ 0 hw (by norm_num) (by rw [← hasIn_testBit]; simpa using ha)]
      rw [clear_of_not_testBit _ 1 hw (by norm_num) (by rw [← hasOut_testBit]; simpa using hb)]

lemma getFusedFuncSig_singleton (k : KernelMeta) (h1 : k.inputCount ≤ 1)
    (h2 : k.signature &&& notExpectedBits = 0) (hw : k.signature < 2 ^ 32) :
    getFusedFuncSig [k] = some k.signature := by
  have ha : acceptedChain [k] = true := by
    simp [acceptedChain, acceptedKernel, h1, h2]
  rw [getFusedFuncSig_of_accepted [k] ha, combinedSig_singleton k hw]

lemma headI_of_head? {α : Type} [Inhabited α] (l : List α) (a : α)
    (h : l.head? = some a) : l.headI = a := by
  cases l with
  | nil => simp at h
  | cons x xs => simp at h; simpa using h

lemma mkArgs_params (k : KernelMeta) :
    mkArgs (paramIn k.signature) (paramX k.signature) (paramY k.signature)
      (paramZ k.signature) k = fusedArgVals k.signature := by
  rw [mkArgs, paramIn, paramX, paramY, paramZ, fusedArgVals, numFusedParams]
  by_cases hIn : hasIn k.signature <;> by_cases hX : hasX k.signature <;>
    by_cases hY : hasY k.signature <;> by_cases hZ : hasZ k.signature <;>
      simp [hIn, hX, hY, hZ, pushIfNonNull, List.range_succ]

lemma runFrom_paramIn (sig : Nat) (i : Nat) :
    runFrom (paramIn sig) 0 i = runningVal (hasIn sig) i := by
  cases i with
  | zero => rfl
  | succ j => simp [runFrom, runningVal]

/-- Claim C1 counterexample: a chain whose first kernel has signature mask 0
is accepted, and the combined mask keeps HasInput as soon as the first
nonzero-mask kernel declares it, even though the first kernel of the chain
does not declare HasInput. -/
theorem claim_C1_counterexample :
    getFusedFuncSig chainC1 = some MD_SIG_In ∧
    chainC1.head? = some ⟨some "k1", 0, 0⟩ ∧
    ¬ (hasIn MD_SIG_In = true ↔ hasIn (0 : Nat) = true) := by
  decide

/-- Claim C1 (amended): for every chain accepted by signature negotiation,
HasInput is in the combined mask exactly when the first kernel with a nonzero
mask declares it (rather than the first kernel of the chain), HasOutput
exactly when the last kernel declares it, and each of UsesX, UsesY, UsesZ and
IsKernel exactly when at least one member declares it. -/
theorem claim_C1 (chain : List KernelMeta) (sig : Nat) (klast : KernelMeta)
    (hl : chain.getLast? = some klast)
    (hsig : getFusedFuncSig chain = some sig) :
    hasIn sig = hasIn (firstNonzeroSig chain) ∧
    hasOut sig = hasOut klast.signature ∧
    hasX sig = chain.any (fun k => hasX k.signature) ∧
    hasY sig = chain.any (fun k => hasY k.signature) ∧
    hasZ sig = chain.any (fun k => hasZ k.signature) ∧
    hasKernelBit sig = chain.any (fun k => hasKernelBit k.signature) := by
  obtain ⟨hacc, hco⟩ := getFusedFuncSig_inv chain sig hsig
  subst hco
  have hlast := lastSigFrom_getLast chain 0 klast hl
  refine ⟨?_, ?_, ?_, ?_, ?_, ?_⟩
  · rw [hasIn_testBit, testBit_combined_zero]
    cases hf : hasIn (firstNonzeroSig chain)
    · simp
    · simp only [Bool.true_and]
      have hFne : firstNonzeroSig chain ≠ 0 := by
        intro h0
        rw [h0] at hf
        exact absurd hf (by decide)
      obtain ⟨k0, hk0m, hk0s⟩ := firstNonzeroSig_mem chain hFne
      rw [orSigs_testBit, List.any_eq_true]
      exact ⟨k0, hk0m, by rw [hk0s, ← hasIn_testBit]; exact hf⟩
  · rw [hasOut_testBit, testBit_combined_one, hlast]
    cases hf : hasOut klast.signature
    · simp
    · simp only [Bool.true_and]
      rw [orSigs_testBit, List.any_eq_true]
      exact ⟨klast, getLast?_mem chain klast hl, by rw [← hasOut_testBit]; exact hf⟩
  · rw [hasX_testBit,
      testBit_combined_high chain 3 (by norm_num) (by norm_num) (by norm_num),
      orSigs_testBit]
    simp only [hasX_testBit]
  · rw [hasY_testBit,
      testBit_combined_high chain 4 (by norm_num) (by norm_num) (by norm_num),
      orSigs_testBit]
    simp only [hasY_testBit]
  · rw [hasZ_testBit,
      testBit_combined_high chain 5 (by norm_num) (by norm_num) (by norm_num),
      orSigs_testBit]
    simp only [hasZ_testBit]
  · rw [hasKernelBit_testBit,
      testBit_combined_high chain 6 (by norm_num) (by norm_num) (by norm_num),
      orSigs_testBit]
    simp only [hasKernelBit_testBit]

/-- Claim C1 witness: the amended statement evaluated on a concrete accepted
two-kernel chain. -/
theorem claim_C1_witness :
    hasIn 27 = hasIn (firstNonzeroSig chainW1) ∧
    hasOut 27 = hasOut (MD_SIG_Out ||| MD_SIG_Y) ∧
    hasX 27 = chainW1.any (fun k => hasX k.signature) ∧
    hasY 27 = chainW1.any (fun k => hasY k.signature) ∧
    hasZ 27 = chainW1.any (fun k => hasZ k.signature) ∧
    hasKernelBit 27 = chainW1.any (fun k => hasKernelBit k.signature) :=
  claim_C1 chainW1 27 ⟨some "b", 0, MD_SIG_Out ||| MD_SIG_Y⟩ (by decide) (by decide)

/-- Claim C2 counterexample: in the chain [K1 = Out-only, K2 = X-only], the
second call's argument list contains the running current value (the result of
the first call) although K2 does not declare HasInput in its own mask. -/
theorem claim_C2_counterexample :
    fuseKernels chainC2 "fused" MC2 = FuseResult.ok MC2'
      [⟨"k1", []⟩, ⟨"k2", [some (Val.callRes 0), some (Val.arg 0)]⟩]
      RetInst.voidRet ∧
    chainC2[1]? = some ⟨some "k2", 0, MD_SIG_X⟩ ∧
    hasIn MD_SIG_X = false := by
  decide

/-- Claim C2 (amended): on every successful fuseKernels run, the i-th emitted
call goes to the i-th member, and its argument list contains the running
current value exactly when that value is non-null (for the first member, when
the combined mask keeps HasInput; for every later member, always, regardless
of that member's own HasInput bit), followed by the fused x, y, z parameters
for exactly the coordinate bits that member individually declares; the i-th
call's result is the running current value for member i+1. -/
theorem claim_C2 (chain : List KernelMeta) (fusedName : String) (M M' : Module)
    (calls : List Call) (r : RetInst) (sig : Nat)
    (hsig : getFusedFuncSig chain = some sig)
    (h : fuseKernels chain fusedName M = FuseResult.ok M' calls r) :
    calls.length = chain.length ∧
    ∀ (i : Nat) (k : KernelMeta), chain[i]? = some k →
      calls[i]? = some ⟨k.forEachName.getD "",
        pushIfNonNull (runningVal (hasIn sig) i)
        ++ (if hasX k.signature then [paramX sig] else [])
        ++ (if hasY k.signature then [paramY sig] else [])
        ++ (if hasZ k.signature then [paramZ sig] else [])⟩ := by
  obtain ⟨sig', fty, dfin, hT, hL, hM, hr⟩ :=
    fuseKernels_ok_inv chain fusedName M M' calls r h
  have hs' := getFusedFuncSig_of_fty chain M sig' fty hT
  rw [hsig] at hs'
  obtain rfl : sig = sig' := Option.some.injEq _ _ ▸ hs'
  obtain ⟨hlen, hspec, _⟩ :=
    fuseLoop_ok_spec (insertFused M fusedName fty) (paramX sig) (paramY sig)
      (paramZ sig) chain (paramIn sig) 0 calls dfin hL
  refine ⟨hlen, ?_⟩
  intro i k hk
  rw [hspec i k hk]
  simp only [mkArgs, runFrom_paramIn]

/-- Claim C2 witness: the amended statement evaluated on a concrete
two-kernel chain where both members declare HasInput and HasOutput. -/
theorem claim_C2_witness :
    ([⟨"p", [some (Val.arg 0)]⟩, ⟨"q", [some (Val.callRes 0)]⟩] : List Call).length
        = chainW2.length ∧
    ∀ (i : Nat) (k : KernelMeta), chainW2[i]? = some k →
      ([⟨"p", [some (Val.arg 0)]⟩, ⟨"q", [some (Val.callRes 0)]⟩] : List Call)[i]? =
        some ⟨k.forEachName.getD "",
          pushIfNonNull (runningVal (hasIn 3) i)
          ++ (if hasX k.signature then [paramX 3] else [])
          ++ (if hasY k.signature then [paramY 3] else [])
          ++ (if hasZ k.signature then [paramZ 3] else [])⟩ :=
  claim_C2 chainW2 "f" MW2 MW2'
    [⟨"p", [some (Val.arg 0)]⟩, ⟨"q", [some (Val.callRes 0)]⟩]
    (RetInst.valRet (some (Val.callRes 1))) 3 (by decide) (by decide)

/-- Claim C3 counterexample: fusing the chain [k1, k2, k3] where k2 cannot be
resolved returns failure, but the destination module is not left unchanged —
the fused function was inserted and the call to k1 was emitted into its entry
block before the failure. -/
theorem claim_C3_counterexample :
    fuseKernels chainC3 "fused" MC3 =
      FuseResult.failed MC3' [⟨"k1", [some (Val.arg 0)]⟩] ∧
    MC3' ≠ MC3 ∧
    MC3'.functions.length = MC3.functions.length + 1 := by
  decide

lemma fuseLoop_error_of_unresolved (M : Module) (X Y Z : Option Val)
    (chain : List KernelMeta) :
    ∀ (d : Option Val) (idx : Nat), (∃ k ∈ chain, getFunction M k = none) →
      ∃ cs, fuseLoop M X Y Z chain d idx = Except.error cs := by
  induction chain with
  | nil =>
    intro d idx hun
    obtain ⟨k, hk, _⟩ := hun
    simp at hk
  | cons k0 rest ih =>
    intro d idx hun
    rcases hf : getFunction M k0 with _ | F
    · refine ⟨[], ?_⟩
      rw [fuseLoop]
      simp only [hf]
    · have hrest : ∃ k ∈ rest, getFunction M k = none := by
        obtain ⟨k, hk, hkn⟩ := hun
        rcases List.mem_cons.mp hk with rfl | hkr
        · rw [hf] at hkn
          exact absurd hkn (by simp)
        · exact ⟨k, hkr, hkn⟩
      obtain ⟨cs', hcs'⟩ := ih (some (Val.callRes idx)) (idx + 1) hrest
      refine ⟨⟨k0.forEachName.getD "", mkArgs d X Y Z k0⟩ :: cs', ?_⟩
      rw [fuseLoop]
      simp only [hf, hcs']

/-- Claim C3 (amended): for every chain whose type synthesis succeeds but in
which some member's underlying function cannot be resolved in the destination
module, fuseKernels returns failure and the exported-kernel-name and
exported-kernel-signature metadata lists are untouched, but the destination
module is not rolled back: the fused function (inserted when its name was
fresh) remains, together with the calls already emitted for the resolved
prefix of the chain. -/
theorem claim_C3 (chain : List KernelMeta) (fusedName : String) (M : Module)
    (sig : Nat) (fty : FuncSig)
    (hT : getFusedFuncType chain M = FTyResult.ok sig fty)
    (hun : ∃ k ∈ chain, getFunction (insertFused M fusedName fty) k = none) :
    ∃ cs,
      fuseKernels chain fusedName M =
        FuseResult.failed (insertFused M fusedName fty) cs ∧
      (insertFused M fusedName fty).exportForEachNameMD = M.exportForEachNameMD ∧
      (insertFused M fusedName fty).exportForEachMD = M.exportForEachMD ∧
      (M.getFunction fusedName = none →
        (insertFused M fusedName fty).functions =
          M.functions ++ [(fusedName, fty)]) := by
  obtain ⟨cs, hcs⟩ := fuseLoop_error_of_unresolved (insertFused M fusedName fty)
    (paramX sig) (paramY sig) (paramZ sig) chain (paramIn sig) 0 hun
  refine ⟨cs, ?_, rfl, rfl, ?_⟩
  · rw [fuseKernels]
    simp only [hT]
    simp only [hcs]
  · intro hnone
    simp [insertFused, hnone]

/-- Claim C3 witness: the amended statement evaluated on the concrete chain
with an unresolvable middle member. -/
theorem claim_C3_witness :
    ∃ cs,
      fuseKernels chainC3 "fused" MC3 =
        FuseResult.failed (insertFused MC3 "fused" ⟨[Ty.base 0], Ty.base 0⟩) cs ∧
      (insertFused MC3 "fused" ⟨[Ty.base 0], Ty.base 0⟩).exportForEachNameMD =
        MC3.exportForEachNameMD ∧
      (insertFused MC3 "fused" ⟨[Ty.base 0], Ty.base 0⟩).exportForEachMD =
        MC3.exportForEachMD ∧
      (MC3.getFunction "fused" = none →
        (insertFused MC3 "fused" ⟨[Ty.base 0], Ty.base 0⟩).functions =
          MC3.functions ++ [("fused", ⟨[Ty.base 0], Ty.base 0⟩)]) :=
  claim_C3 chainC3 "fused" MC3 3 ⟨[Ty.base 0], Ty.base 0⟩ (by decide)
    ⟨⟨some "k2", 0, 3⟩, by decide, by decide⟩

/-- Claim C4: a chain containing a kernel with more than one declared input,
or with any signature bit outside the supported set, makes fuseKernels fail
with the destination module returned unchanged — in particular its
exported-kernel metadata lists are not modified. -/
theorem claim_C4 (chain : List KernelMeta) (fusedName : String) (M : Module)
    (h : ∃ k ∈ chain, 1 < k.inputCount ∨
      (k.signature < 2 ^ 32 ∧ ∃ i, k.signature.testBit i = true ∧
        ExpectedSignatureBits.testBit i = false)) :
    fuseKernels chain fusedName M = FuseResult.failed M [] := by
  obtain ⟨k, hkmem, hbad⟩ := h
  have hak : acceptedKernel k = false := by
    rcases hbad with hc | ⟨hw, i, hbit, hexb⟩
    · rw [acceptedKernel]
      have : (decide (k.inputCount ≤ 1)) = false := by
        simp
        omega
      rw [this, Bool.false_and]
    · have hi : i < 32 := by
        by_contra hge
        have hlt : k.signature < 2 ^ i :=
          lt_of_lt_of_le hw (Nat.pow_le_pow_right (by norm_num) (by omega))
        rw [Nat.testBit_lt_two_pow hlt] at hbit
        exact Bool.false_ne_true hbit
      have hne : notExpectedBits.testBit i = true := by
        rw [notExpectedBits, Nat.testBit_xor, uint32Mask,
          Nat.testBit_two_pow_sub_one, hexb]
        simp [hi]
      have hnz : k.signature &&& notExpectedBits ≠ 0 := by
        intro h0
        have := Nat.testBit_and k.signature notExpectedBits i
        rw [h0, Nat.zero_testBit, hbit, hne] at this
        exact absurd this (by simp)
      rw [acceptedKernel]
      have : (k.signature &&& notExpectedBits == 0) = false := by
        simpa using hnz
      rw [this, Bool.and_false]
  have hacc : acceptedChain chain = false := by
    cases hv : acceptedChain chain
    · rfl
    · exfalso
      rw [acceptedChain, List.all_eq_true] at hv
      rw [hv k hkmem] at hak
      exact absurd hak (by simp)
  have hsig : getFusedFuncSig chain = none := by
    rw [getFusedFuncSig, fusedSigLoop_none chain hacc 0 0 0]
  have hT : getFusedFuncType chain M = FTyResult.fail := by
    rw [getFusedFuncType, hsig]
  rw [fuseKernels]
  simp only [hT]

/-- Claim C4 witness: a single-kernel chain with input count 2 fails and the
destination module, including its exported lists, is returned unchanged. -/
theorem claim_C4_witness :
    fuseKernels chainW4 "f" MW4 = FuseResult.failed MW4 [] :=
  claim_C4 chainW4 "f" MW4 ⟨⟨some "k", 2, 3⟩, by decide, Or.inl (by norm_num)⟩

/-- Claim C5: for an accepted chain whose first and last members resolve, the
fused function's parameter list is built from the combined mask in the fixed
order [input, x, y, z], the input parameter type is copied from the first
kernel's first parameter, x, y, z are 32-bit integers, and the return type is
the last kernel's return type. -/
theorem claim_C5 (chain : List KernelMeta) (M : Module) (sig : Nat)
    (k1 kl : KernelMeta) (firstF lastF : FuncSig) (inTy : Ty)
    (hsig : getFusedFuncSig chain = some sig)
    (hh : chain.head? = some k1)
    (hl : chain.getLast? = some kl)
    (h1 : getFunction M k1 = some firstF)
    (h2 : getFunction M kl = some lastF)
    (hin : hasIn sig = true → firstF.args.head? = some inTy) :
    getFusedFuncType chain M = FTyResult.ok sig
      ⟨(if hasIn sig then [inTy] else [])
        ++ (if hasX sig then [Ty.i32] else [])
        ++ (if hasY sig then [Ty.i32] else [])
        ++ (if hasZ sig then [Ty.i32] else []), lastF.ret⟩ := by
  simp only [getFusedFuncType, hsig, hh, hl, h1, h2]
  have harg : fusedArgTys sig firstF =
      (if hasIn sig then [inTy] else [])
        ++ (if hasX sig then [Ty.i32] else [])
        ++ (if hasY sig then [Ty.i32] else [])
        ++ (if hasZ sig then [Ty.i32] else []) := by
    rw [fusedArgTys]
    by_cases hI : hasIn sig
    · rw [if_pos hI, if_pos hI, headI_of_head? firstF.args inTy (hin hI)]
    · rw [if_neg hI, if_neg hI]
  rw [harg]

/-- Claim C5 witness: the fused type computed for a concrete one-kernel chain
declaring HasInput, HasOutput and UsesX. -/
theorem claim_C5_witness :
    getFusedFuncType chainW5 MW5 = FTyResult.ok 11
      ⟨[Ty.base 7, Ty.i32], Ty.base 9⟩ :=
  claim_C5 chainW5 MW5 11 ⟨some "k", 0, 11⟩ ⟨some "k", 0, 11⟩
    ⟨[Ty.base 7, Ty.i32], Ty.base 9⟩ ⟨[Ty.base 7, Ty.i32], Ty.base 9⟩
    (Ty.base 7) (by decide) (by decide) (by decide) (by decide) (by decide)
    (fun _ => by decide)

/-- Claim C6: every successful fuseKernels run appends exactly one entry (the
fused name) to the exported-kernel-name metadata list and exactly one entry
(the combined signature as a decimal string) to the exported-kernel-signature
metadata list, so equal lengths are preserved. -/
theorem claim_C6 (chain : List KernelMeta) (fusedName : String) (M M' : Module)
    (calls : List Call) (r : RetInst)
    (h : fuseKernels chain fusedName M = FuseResult.ok M' calls r) :
    ∃ sig, getFusedFuncSig chain = some sig ∧
      M'.exportForEachNameMD = M.exportForEachNameMD ++ [fusedName] ∧
      M'.exportForEachMD = M.exportForEachMD ++ [Nat.repr sig] ∧
      (M.exportForEachNameMD.length = M.exportForEachMD.length →
        M'.exportForEachNameMD.length = M'.exportForEachMD.length) := by
  obtain ⟨sig, fty, dfin, hT, hL, hM, hr⟩ :=
    fuseKernels_ok_inv chain fusedName M M' calls r h
  refine ⟨sig, getFusedFuncSig_of_fty chain M sig fty hT, ?_, ?_, ?_⟩
  · rw [hM]
  · rw [hM]
  · intro he
    rw [hM]
    simp [he]

/-- Claim C6 witness: one fusion run over a module whose exported lists
already hold one entry each; both lists grow by exactly the fused entry. -/
theorem claim_C6_witness :
    ∃ sig, getFusedFuncSig chainW6 = some sig ∧
      MW6'.exportForEachNameMD = MW6.exportForEachNameMD ++ ["h"] ∧
      MW6'.exportForEachMD = MW6.exportForEachMD ++ [Nat.repr sig] ∧
      (MW6.exportForEachNameMD.length = MW6.exportForEachMD.length →
        MW6'.exportForEachNameMD.length = MW6'.exportForEachMD.length) :=
  claim_C6 chainW6 "h" MW6 MW6' [⟨"g", [some (Val.arg 0)]⟩]
    (RetInst.valRet (some (Val.callRes 0))) (by decide)

/-- Claim C7: for every exported plain function renameInvoke can locate, the
synthesized trampoline registered under the new name has exactly the
original's parameter types and return type, its body is a single call that
forwards the trampoline's first argument unmodified to the original function,
and it ends in a void return; the new name is appended to the
exported-function metadata list. -/
theorem claim_C7 (funcName newName : String) (M : Module) (F : FuncSig)
    (h : M.getFunction funcName = some F) :
    renameInvoke (some funcName) newName M = some
      ({ M with
          functions := M.functions ++ [(newName, ⟨F.args, F.ret⟩)],
          exportFuncMD := M.exportFuncMD ++ [newName] },
       ⟨F.args, F.ret⟩, ⟨funcName, [some (Val.arg 0)]⟩, RetInst.voidRet) := by
  simp only [renameInvoke, getInvokeFunction, h, Option.getD_some]

/-- Claim C7 witness: the trampoline synthesized for a concrete two-parameter
function. -/
theorem claim_C7_witness :
    renameInvoke (some "fn") "fn2" MW7 = some
      ({ MW7 with
          functions := MW7.functions ++ [("fn2", ⟨[Ty.base 1, Ty.i32], Ty.i32⟩)],
          exportFuncMD := MW7.exportFuncMD ++ ["fn2"] },
       ⟨[Ty.base 1, Ty.i32], Ty.i32⟩, ⟨"fn", [some (Val.arg 0)]⟩, RetInst.voidRet) :=
  claim_C7 "fn" "fn2" MW7 ⟨[Ty.base 1, Ty.i32], Ty.i32⟩ (by decide)

/-- Claim C8: fusing a chain of length one over a supported kernel registers
exactly the kernel's own signature bits, gives the fused function the
original kernel's return type, and emits a single call forwarding all fused
parameters, in order, to the original kernel, whose result is returned when
the return type is not void. -/
theorem claim_C8 (k : KernelMeta) (nm fusedName : String) (M : Module)
    (F : FuncSig)
    (hn : k.forEachName = some nm) (hne : nm ≠ "")
    (hc : k.inputCount ≤ 1)
    (hb : k.signature &&& notExpectedBits = 0)
    (hw : k.signature < 2 ^ 32)
    (hF : M.getFunction nm = some F)
    (hfresh : M.getFunction fusedName = none) :
    fuseKernels [k] fusedName M = FuseResult.ok
      { M with
        functions := M.functions ++ [(fusedName, ⟨fusedArgTys k.signature F, F.ret⟩)],
        exportForEachNameMD := M.exportForEachNameMD ++ [fusedName],
        exportForEachMD := M.exportForEachMD ++ [Nat.repr k.signature] }
      [⟨nm, fusedArgVals k.signature⟩]
      (if F.ret = Ty.void then RetInst.voidRet
       else RetInst.valRet (some (Val.callRes 0))) := by
  have hgf : getFunction M k = some F := by
    simp only [getFunction, hn]
    rw [if_neg hne, if_neg (by omega)]
    exact hF
  have hsig : getFusedFuncSig [k] = some k.signature :=
    getFusedFuncSig_singleton k hc hb hw
  have hT : getFusedFuncType [k] M =
      FTyResult.ok k.signature ⟨fusedArgTys k.signature F, F.ret⟩ := by
    simp only [getFusedFuncType, hsig, List.head?_cons, List.getLast?_singleton, hgf]
  have hins : insertFused M fusedName ⟨fusedArgTys k.signature F, F.ret⟩ =
      { M with functions :=
          M.functions ++ [(fusedName, ⟨fusedArgTys k.signature F, F.ret⟩)] } := by
    rw [insertFused, hfresh]
    rfl
  have hgf1 : getFunction
      (insertFused M fusedName ⟨fusedArgTys k.signature F, F.ret⟩) k = some F := by
    rw [hins]
    exact getFunction_append M _ k F hgf
  have hloop : fuseLoop (insertFused M fusedName ⟨fusedArgTys k.signature F, F.ret⟩)
      (paramX k.signature) (paramY k.signature) (paramZ k.signature)
      [k] (paramIn k.signature) 0 =
      Except.ok ([⟨nm, fusedArgVals k.signature⟩], some (Val.callRes 0)) := by
    rw [fuseLoop]
    simp only [hgf1]
    rw [fuseLoop]
    simp only [hn, Option.getD_some, mkArgs_params]
  rw [fuseKernels]
  simp only [hT]
  simp only [hloop]
  simp only [hins]
  by_cases hv : F.ret = Ty.void
  · rw [if_pos hv, if_pos hv]
  · rw [if_neg hv, if_neg hv]

/-- Claim C8 witness: length-1 fusion of a concrete kernel with mask
In|X|Kernel (= 73). -/
theorem claim_C8_witness :
    fuseKernels [kW8] "fused8" MW8 = FuseResult.ok
      { MW8 with
        functions := MW8.functions ++ [("fused8", ⟨[Ty.base 2, Ty.i32], Ty.base 2⟩)],
        exportForEachNameMD := ["fused8"],
        exportForEachMD := ["73"] }
      [⟨"orig", [some (Val.arg 0), some (Val.arg 1)]⟩]
      (RetInst.valRet (some (Val.callRes 0))) :=
  claim_C8 kW8 "orig" "fused8" MW8 ⟨[Ty.base 2, Ty.i32], Ty.base 2⟩
    (by decide) (by decide) (by decide) (by decide) (by decide) (by decide) (by decide)

end RSFusion


namespace BccCompiler

/-- Claim C9: the cached-image address-slot pool is statically sized with
exactly 5 slots starting at fixed base address 0x7e000000, each slot covering
a fixed 128 KiB code region plus a fixed 128 KiB data region, and the
process-wide occupancy table holds exactly one boolean entry per slot. -/
theorem claim_C9 :
    BCC_MMAP_IMG_BEGIN = 0x7e000000 ∧
    BCC_MMAP_IMG_COUNT = 5 ∧
    BCC_MMAP_IMG_CODE_SIZE = 128 * 1024 ∧
    BCC_MMAP_IMG_DATA_SIZE = 128 * 1024 ∧
    BCC_MMAP_IMG_SIZE = BCC_MMAP_IMG_CODE_SIZE + BCC_MMAP_IMG_DATA_SIZE ∧
    ∀ g : CompilerGlobals,
      g.BccMmapImgAddrTaken.1.length = BCC_MMAP_IMG_COUNT :=
  ⟨rfl, rfl, rfl, rfl, rfl, fun g => g.BccMmapImgAddrTaken.2⟩

/-- Claim C10: readModule always runs the guarded global initialization,
always stores the given module pointer in the current-module field, and
returns non-zero exactly when the retained error string is non-empty — so a
leftover error from an earlier operation makes readModule report failure even
though the module was stored. -/
theorem claim_C10 (c : Compiler) (m : Nat) :
    ((c.readModule m).1).globals.GlobalInitialized = true ∧
    ((c.readModule m).1).mModule = some m ∧
    ((c.readModule m).2 ≠ 0 ↔ c.mError ≠ "") ∧
    (c.mError ≠ "" →
      (c.readModule m).2 = 1 ∧ ((c.readModule m).1).mModule = some m) := by
  have hinit : (GlobalInitialization c.globals).GlobalInitialized = true := by
    rw [GlobalInitialization]
    by_cases h : c.globals.GlobalInitialized
    · rw [if_pos h]
      exact h
    · rw [if_neg h]
  have hret : (c.readModule m).2 = if c.mError.isEmpty then 0 else 1 := by
    rw [Compiler.readModule]
    simp only [Compiler.hasError]
    rcases Bool.eq_false_or_eq_true c.mError.isEmpty with h | h <;> simp [h]
  refine ⟨hinit, rfl, ?_, ?_⟩
  · rw [hret]
    by_cases h : c.mError = ""
    · have : c.mError.isEmpty = true := (String.isEmpty_iff c.mError).mpr h
      rw [this]
      simp [h]
    · have : c.mError.isEmpty = false := by
        cases hv : c.mError.isEmpty
        · rfl
        · exact absurd ((String.isEmpty_iff c.mError).mp hv) h
      rw [this]
      simp [h]
  · intro h
    have : c.mError.isEmpty = false := by
      cases hv : c.mError.isEmpty
      · rfl
      · exact absurd ((String.isEmpty_iff c.mError).mp hv) h
    rw [hret, this]
    exact ⟨rfl, rfl⟩

end BccCompiler
